import Mathlib

/-!
Verification of the bulk client import pipeline of the CourseCRM repository.

The frontend logic (ClientsPage: `handlePhonePaste`, `handleFileSelect`,
`handleImportConfirm`, the preview/result rendering) is embedded directly
from the React source. The FastAPI backend that serves
`/api/import/preview` and `/api/import/save` is not part of the repository
snapshot; the deduplicator, preview assembler, and committer are modelled
from the specification (sections 4.3 to 4.5) and marked as such.
-/

namespace CRMImport

/-- Embeds the cleaning step of `handlePhonePaste`:
`pastedText.replace(/[^\d+]/g, '')` keeps only digit characters and `+`. -/
def cleanPhoneOf (s : String) : String :=
  String.mk (s.data.filter (fun c => c.isDigit || c == '+'))

/-- Embeds JavaScript `String.prototype.startsWith` on the character
sequence of a string. -/
def startsWithStr (s p : String) : Bool :=
  List.isPrefixOf p.data s.data

/-- Embeds `handlePhonePaste` (ClientsPage): after cleaning, a 9-character
string with no leading `+` gets the `+998` country code; a 12-character
string starting with `998` gets a leading `+`; anything else is returned
as cleaned. -/
def formatPastedPhone (s : String) : String :=
  let cleanPhone := cleanPhoneOf s
  if cleanPhone.length = 9 ∧ startsWithStr cleanPhone "+" = false then
    "+998" ++ cleanPhone
  else if cleanPhone.length = 12 ∧ startsWithStr cleanPhone "998" = true then
    "+" ++ cleanPhone
  else
    cleanPhone

/-- The canonical-phone shape claimed by the spec glossary: every character
after the first is a digit, and the first character (if any) is a digit or
`+`; hence at most one `+`, and only in leading position. -/
def CanonicalShape (s : String) : Prop :=
  (∀ c ∈ s.data.take 1, c.isDigit = true ∨ c = '+') ∧
  (∀ c ∈ s.data.drop 1, c.isDigit = true)

instance (s : String) : Decidable (CanonicalShape s) := by
  unfold CanonicalShape
  infer_instance

end CRMImport

namespace CRMImport

/-- Claim C2: the paste-time canonicalizer maps `"901234567"` to
`"+998901234567"` and `"+998 90 123 45 67"` to `"+998901234567"`. -/
theorem phone_canonicalization_examples :
    formatPastedPhone "901234567" = "+998901234567" ∧
    formatPastedPhone "+998 90 123 45 67" = "+998901234567" := by
  constructor <;> decide

/-- Claim C10: whenever the cleaned paste is not in one of the two rewrite
cases (length 9 without leading `+`, or length 12 starting with `998`), the
formatter returns the cleaned string unchanged — no further length check. -/
theorem formatPastedPhone_no_length_validation (s : String)
    (h9 : ¬ ((cleanPhoneOf s).length = 9 ∧ startsWithStr (cleanPhoneOf s) "+" = false))
    (h12 : ¬ ((cleanPhoneOf s).length = 12 ∧ startsWithStr (cleanPhoneOf s) "998" = true)) :
    formatPastedPhone s = cleanPhoneOf s := by
  unfold formatPastedPhone
  simp only [h9, h12, if_false]

/-- Witness for C10 at the short input `"12-34"` (4 digits, fewer than 7):
it is returned verbatim as `"1234"`. -/
theorem formatPastedPhone_no_length_validation_witness :
    formatPastedPhone "12-34" = cleanPhoneOf "12-34" ∧ cleanPhoneOf "12-34" = "1234" :=
  ⟨formatPastedPhone_no_length_validation "12-34" (by decide) (by decide), by rfl⟩

/-- Claim C3 counterexample: the input `"12+34"` is returned as `"12+34"`,
whose `+` is interior — the output is not digits plus a single leading `+`. -/
theorem formatPastedPhone_interior_plus :
    formatPastedPhone "12+34" = "12+34" ∧ ¬ CanonicalShape (formatPastedPhone "12+34") := by
  constructor
  · decide
  · decide

lemma cleanPhoneOf_digits (s : String) (h : '+' ∉ s.data) :
    ∀ c ∈ (cleanPhoneOf s).data, c.isDigit = true := by
  intro c hc
  have hmem : c ∈ s.data.filter (fun c => c.isDigit || c == '+') := hc
  rw [List.mem_filter] at hmem
  obtain ⟨hs, hp⟩ := hmem
  cases hd : c.isDigit with
  | true => rfl
  | false =>
    exfalso
    rw [hd, Bool.false_or, beq_iff_eq] at hp
    exact h (hp ▸ hs)

lemma canonicalShape_of_digits (t : String)
    (ht : ∀ c ∈ t.data, c.isDigit = true) : CanonicalShape t := by
  refine ⟨fun c hc => Or.inl (ht c (List.mem_of_mem_take hc)),
          fun c hc => ht c (List.mem_of_mem_drop hc)⟩

/-- Claim C3 (amended): for every input containing no `+` character, the
formatted paste output consists only of digits plus at most one `+`, which
can occur only in leading position. -/
theorem formatPastedPhone_canonical_of_no_plus (s : String) (h : '+' ∉ s.data) :
    CanonicalShape (formatPastedPhone s) := by
  have hd := cleanPhoneOf_digits s h
  simp only [formatPastedPhone]
  split
  · have hdata : ("+998" ++ cleanPhoneOf s).data
        = '+' :: '9' :: '9' :: '8' :: (cleanPhoneOf s).data := by
      rw [String.data_append]; rfl
    constructor
    · intro c hc
      rw [hdata] at hc
      simp only [List.take, List.mem_singleton] at hc
      exact Or.inr hc
    · intro c hc
      rw [hdata] at hc
      simp only [List.drop, List.mem_cons] at hc
      rcases hc with h9 | h9 | h8 | hrest
      · rw [h9]; rfl
      · rw [h9]; rfl
      · rw [h8]; rfl
      · exact hd c hrest
  split
  · have hdata : ("+" ++ cleanPhoneOf s).data = '+' :: (cleanPhoneOf s).data := by
      rw [String.data_append]; rfl
    constructor
    · intro c hc
      rw [hdata] at hc
      simp only [List.take, List.mem_singleton] at hc
      exact Or.inr hc
    · intro c hc
      rw [hdata] at hc
      simp only [List.drop] at hc
      exact hd c hc
  · exact canonicalShape_of_digits _ hd

/-- Witness for the amended C3 at the plausible raw paste `"33 123 45 67"`. -/
theorem formatPastedPhone_canonical_witness :
    '+' ∉ ("33 123 45 67" : String).data ∧
      CanonicalShape (formatPastedPhone "33 123 45 67") :=
  ⟨by decide, formatPastedPhone_canonical_of_no_plus "33 123 45 67" (by decide)⟩

end CRMImport

namespace CRMImport

/-- Embeds the shape of one row of the preview JSON consumed by
ClientsPage: the flags `valid` and `is_duplicate` plus the displayed
fields; `source` and `status` may be absent in the JSON (`none`). -/
structure PreviewRow where
  valid : Bool
  is_duplicate : Bool
  name : String
  phone : String
  source : Option String
  status : Option String
deriving DecidableEq

/-- Embeds the preview object held in the `importPreview` state variable:
aggregate counts plus the row list. -/
structure ImportPreview where
  total : Nat
  valid : Nat
  duplicates : Nat
  errors : Nat
  rows : List PreviewRow
deriving DecidableEq

/-- Embeds the JavaScript fallback `v || d` on an optional string field:
an absent value and the empty string both fall through to the default. -/
def jsOr (v : Option String) (d : String) : String :=
  match v with
  | none => d
  | some s => if s = "" then d else s

/-- Embeds one element of the `/api/import/save` request body built by
`handleImportConfirm`: fields name, phone, source, status, manager_id. -/
structure CommitRowPayload where
  name : String
  phone : String
  source : String
  status : String
  manager_id : Option Nat
deriving DecidableEq

/-- Embeds the arrow body
`r => (\x7b name: r.name, phone: r.phone, source: r.source || '', status: r.status || 'new', manager_id: null \x7d)`
from `handleImportConfirm`. -/
def projectRow (r : PreviewRow) : CommitRowPayload :=
  ⟨r.name, r.phone, jsOr r.source "", jsOr r.status "new", none⟩

/-- Embeds `importPreview.rows.filter(r => r.valid).map(...)` from
`handleImportConfirm`. -/
def buildValidRows (p : ImportPreview) : List CommitRowPayload :=
  (p.rows.filter (fun r => r.valid)).map projectRow

/-- Embeds the control flow of `handleImportConfirm`: if no preview is
loaded or `importPreview.valid === 0` it returns early and no request is
issued (`none`); otherwise the request body is `buildValidRows`. -/
def handleImportConfirm (p : Option ImportPreview) : Option (List CommitRowPayload) :=
  match p with
  | none => none
  | some pv => if pv.valid = 0 then none else some (buildValidRows pv)

/-- The commit body as the spec words it: exactly the rows whose `valid`
flag is set, kept in their original order, each projected to the
five-field payload; all other rows dropped. -/
def specCommitBody : List PreviewRow → List CommitRowPayload
  | [] => []
  | r :: rs => if r.valid then projectRow r :: specCommitBody rs else specCommitBody rs

end CRMImport

namespace CRMImport

lemma buildValidRows_eq_specCommitBody (rows : List PreviewRow) :
    (rows.filter (fun r => r.valid)).map projectRow = specCommitBody rows := by
  induction rows with
  | nil => rfl
  | cons r rs ih =>
    cases hv : r.valid with
    | true => simp [List.filter_cons, hv, specCommitBody, ih]
    | false => simp [List.filter_cons, hv, specCommitBody, ih]

/-- Claim C4: the commit request body equals the spec-side selection —
exactly the preview rows whose `valid` flag is true, in original order,
projected to name, phone, source, status, manager_id; invalid and
duplicate rows (whose flag is false) are never included. -/
theorem commit_body_is_valid_rows (p : ImportPreview) :
    buildValidRows p = specCommitBody p.rows :=
  buildValidRows_eq_specCommitBody p.rows

/-- Claim C7: a row with an absent status is sent onward with the system
default status, the string literal of the default status name. -/
theorem absent_status_defaults (r : PreviewRow) (h : r.status = none) :
    (projectRow r).status = "new" := by
  simp [projectRow, jsOr, h]

/-- Witness for C7 at a concrete row with no status field. -/
theorem absent_status_defaults_witness :
    (PreviewRow.status ⟨true, false, "Anna", "+998901234567", none, none⟩
        = (none : Option String)) ∧
      (projectRow ⟨true, false, "Anna", "+998901234567", none, none⟩).status = "new" :=
  ⟨rfl, absent_status_defaults ⟨true, false, "Anna", "+998901234567", none, none⟩ rfl⟩

/-- Claim C8: when no preview is loaded, or the loaded preview reports
zero valid rows, the confirm handler builds no request at all. -/
theorem no_commit_when_zero_valid (p : Option ImportPreview)
    (h : ∀ pv ∈ p, pv.valid = 0) :
    handleImportConfirm p = none := by
  cases p with
  | none => rfl
  | some pv =>
    have h0 : pv.valid = 0 := h pv rfl
    simp [handleImportConfirm, h0]

/-- Witness for C8 at a concrete preview with one duplicate row and a
zero valid count. -/
theorem no_commit_when_zero_valid_witness :
    handleImportConfirm
        (some ⟨1, 0, 1, 0, [⟨false, true, "Bob", "+998901234567", none, none⟩]⟩)
      = none :=
  no_commit_when_zero_valid
    (some ⟨1, 0, 1, 0, [⟨false, true, "Bob", "+998901234567", none, none⟩]⟩)
    (by intro pv hpv; cases hpv; rfl)

/-- Claim C9: every row of the commit request body is unassigned — its
manager_id field is null, whatever the preview row contained. -/
theorem commit_rows_unassigned (p : ImportPreview)
    (x : CommitRowPayload) (hx : x ∈ buildValidRows p) :
    x.manager_id = none := by
  rcases List.mem_map.mp hx with ⟨r, _, hr⟩
  rw [← hr]
  rfl

/-- Witness for C9 at a concrete one-row preview. -/
theorem commit_rows_unassigned_witness :
    (projectRow ⟨true, false, "Anna", "+998901234567", some "Instagram", some "new"⟩).manager_id
      = none :=
  commit_rows_unassigned
    ⟨1, 1, 0, 0, [⟨true, false, "Anna", "+998901234567", some "Instagram", some "new"⟩]⟩
    (projectRow ⟨true, false, "Anna", "+998901234567", some "Instagram", some "new"⟩)
    (by decide)

end CRMImport

namespace CRMImport

/-- Modelled from the spec: the RowOutcome tags of the data model (§3);
the backend serving the preview endpoint is not in the repository
snapshot. -/
inductive RowOutcome where
  | valid
  | duplicate_existing
  | duplicate_in_batch
  | invalid
deriving DecidableEq

/-- A client record as persisted by the external CRUD collaborator (§3,
§6). -/
structure Client where
  name : String
  phone : String
deriving DecidableEq

/-- A mutation of the client store. The import pipeline, per the spec,
only ever creates records; edits and deletions are included so the frame
property is expressible. -/
inductive StoreOp where
  | create (c : Client)
  | edit (phone : String) (c : Client)
  | delete (phone : String)
deriving DecidableEq

def applyOp (store : List Client) : StoreOp → List Client
  | StoreOp.create c => store ++ [c]
  | StoreOp.edit p c => store.map (fun x => if x.phone = p then c else x)
  | StoreOp.delete p => store.filter (fun x => x.phone != p)

def applyOps (store : List Client) (ops : List StoreOp) : List Client :=
  ops.foldl applyOp store

/-- The `list_existing_phones()` read of §6, over an explicit store. -/
def listExistingPhones (store : List Client) : List String :=
  store.map (fun c => c.phone)

/-- Modelled from the spec: the Deduplicator step (§4.3); the backend is
not in the repository snapshot. One candidate phone is classified against
the existing-store set and the within-batch seen set, returning the
outcome, the updated seen set, and the store operations performed for
this row (none: preview is read-only). -/
def previewRowStep (existing seen : List String) (p : String) :
    RowOutcome × List String × List StoreOp :=
  if p ∈ existing then (RowOutcome.duplicate_existing, seen, [])
  else if p ∈ seen then (RowOutcome.duplicate_in_batch, seen, [])
  else (RowOutcome.valid, p :: seen, [])

/-- Modelled from the spec: the Deduplicator run over a whole batch in
file order (§4.3), tracking the store operations each row performs. -/
def previewRows (existing : List String) : List String → List String →
    List RowOutcome × List StoreOp
  | _, [] => ([], [])
  | seen, p :: ps =>
    let st := previewRowStep existing seen p
    let rest := previewRows existing st.2.1 ps
    (st.1 :: rest.1, st.2.2 ++ rest.2)

/-- Modelled from the spec: the pure classification sequence of the
Deduplicator (§4.3) — the outcome of each candidate phone, in file order,
starting from a given seen set. -/
def dedupRows (existing : List String) : List String → List String → List RowOutcome
  | _, [] => []
  | seen, p :: ps =>
    if p ∈ existing then RowOutcome.duplicate_existing :: dedupRows existing seen ps
    else if p ∈ seen then RowOutcome.duplicate_in_batch :: dedupRows existing seen ps
    else RowOutcome.valid :: dedupRows existing (p :: seen) ps

/-- The classification of a batch, starting from an empty seen set. -/
def classifyBatch (existing batch : List String) : List RowOutcome :=
  dedupRows existing [] batch

/-- The PreviewResult aggregate of the data model (§3). -/
structure PreviewResult where
  outcomes : List RowOutcome
  total : Nat
  valid : Nat
  duplicates : Nat
  errors : Nat
deriving DecidableEq

/-- Modelled from the spec: the PreviewAssembler (§4.4); the backend is
not in the repository snapshot. Reads the existing-phone set once, runs
the per-row pipeline, tallies outcome kinds, and returns everything as
data together with the store operations performed (none). -/
def previewRun (store : List Client) (batch : List String) :
    PreviewResult × List StoreOp :=
  let existing := listExistingPhones store
  let pr := previewRows existing [] batch
  (⟨pr.1, pr.1.length,
    pr.1.count RowOutcome.valid,
    pr.1.count RowOutcome.duplicate_existing + pr.1.count RowOutcome.duplicate_in_batch,
    pr.1.count RowOutcome.invalid⟩, pr.2)

/-- One row of a commit request, as resubmitted by the operator (§4.5). -/
structure CommitInputRow where
  rowNum : Nat
  name : String
  phone : String
  source : String
  status : String
deriving DecidableEq

/-- One failure entry of the commit report, with the field names used by
the ClientsPage result rendering: `row.row`, `row.phone`, `row.error`. -/
structure FailedRow where
  row : Nat
  phone : String
  error : String
deriving DecidableEq

/-- The ImportCommitReport of the data model (§3), with the field names
used by the ClientsPage result rendering: `success`, `failed`,
`failed_rows`. -/
structure ImportCommitReport where
  success : Nat
  failed : Nat
  failed_rows : List FailedRow
deriving DecidableEq

/-- Modelled from the spec: the commit-time re-validation (§4.5 step 1,
applying the §4.2 field rules); the backend is not in the repository
snapshot. A blank name gives the error "name is required"; a phone with
fewer than 7 digits gives "invalid phone number". -/
def validateCommitRow (r : CommitInputRow) : Option String :=
  if r.name.data.all (fun c => c.isWhitespace) then some "name is required"
  else if (r.phone.data.filter Char.isDigit).length < 7 then some "invalid phone number"
  else none

/-- Modelled from the spec: the Committer (§4.5); the backend is not in
the repository snapshot. Rows are processed independently in file order:
a row failing re-validation yields a failure entry with the validation
error; a store phone collision yields a failure entry "duplicate phone";
otherwise the row yields a create operation and a success. -/
def commitRows (storePhones : List String) :
    List CommitInputRow → ImportCommitReport × List StoreOp
  | [] => (⟨0, 0, []⟩, [])
  | r :: rs =>
    let rest := commitRows storePhones rs
    match validateCommitRow r with
    | some err =>
        (⟨rest.1.success, rest.1.failed + 1,
          ⟨r.rowNum, r.phone, err⟩ :: rest.1.failed_rows⟩, rest.2)
    | none =>
        if r.phone ∈ storePhones then
          (⟨rest.1.success, rest.1.failed + 1,
            ⟨r.rowNum, r.phone, "duplicate phone"⟩ :: rest.1.failed_rows⟩, rest.2)
        else
          (⟨rest.1.success + 1, rest.1.failed, rest.1.failed_rows⟩,
            StoreOp.create ⟨r.name, r.phone⟩ :: rest.2)

end CRMImport

namespace CRMImport

lemma dedupRows_length (existing seen ps : List String) :
    (dedupRows existing seen ps).length = ps.length := by
  induction ps generalizing seen with
  | nil => rfl
  | cons p ps ih =>
    by_cases h1 : p ∈ existing
    · simp [dedupRows, h1, ih]
    · by_cases h2 : p ∈ seen
      · simp [dedupRows, h1, h2, ih]
      · simp [dedupRows, h1, h2, ih]

lemma classifyBatch_length (existing batch : List String) :
    (classifyBatch existing batch).length = batch.length :=
  dedupRows_length existing [] batch

lemma dedupRows_cons_mem_existing (existing seen : List String) (p : String)
    (ps : List String) (h1 : p ∈ existing) :
    dedupRows existing seen (p :: ps)
      = RowOutcome.duplicate_existing :: dedupRows existing seen ps := by
  simp [dedupRows, h1]

lemma dedupRows_cons_mem_seen (existing seen : List String) (p : String)
    (ps : List String) (h1 : p ∉ existing) (h2 : p ∈ seen) :
    dedupRows existing seen (p :: ps)
      = RowOutcome.duplicate_in_batch :: dedupRows existing seen ps := by
  simp [dedupRows, h1, h2]

lemma dedupRows_cons_fresh (existing seen : List String) (p : String)
    (ps : List String) (h1 : p ∉ existing) (h2 : p ∉ seen) :
    dedupRows existing seen (p :: ps)
      = RowOutcome.valid :: dedupRows existing (p :: seen) ps := by
  simp [dedupRows, h1, h2]

lemma dedupRows_get_dib_of_mem_seen (existing : List String) (ps : List String) :
    ∀ (seen : List String) (k : Nat) (hk : k < ps.length)
      (ho : k < (dedupRows existing seen ps).length),
      ps.get ⟨k, hk⟩ ∈ seen → ps.get ⟨k, hk⟩ ∉ existing →
      (dedupRows existing seen ps).get ⟨k, ho⟩ = RowOutcome.duplicate_in_batch := by
  induction ps with
  | nil => intro seen k hk; exact absurd hk (by simp)
  | cons p ps ih =>
    intro seen k hk ho hseen hex
    cases k with
    | zero =>
      have hp : (p :: ps).get ⟨0, hk⟩ = p := rfl
      rw [hp] at hseen hex
      rw [List.get_of_eq (dedupRows_cons_mem_seen existing seen p ps hex hseen)]
      rfl
    | succ k =>
      have hp : (p :: ps).get ⟨k + 1, hk⟩ = ps.get ⟨k, Nat.lt_of_succ_lt_succ hk⟩ := rfl
      rw [hp] at hseen hex
      by_cases h1 : p ∈ existing
      · rw [List.get_of_eq (dedupRows_cons_mem_existing existing seen p ps h1)]
        rw [List.get_cons_succ]
        exact ih seen k _ _ hseen hex
      · by_cases h2 : p ∈ seen
        · rw [List.get_of_eq (dedupRows_cons_mem_seen existing seen p ps h1 h2)]
          rw [List.get_cons_succ]
          exact ih seen k _ _ hseen hex
        · rw [List.get_of_eq (dedupRows_cons_fresh existing seen p ps h1 h2)]
          rw [List.get_cons_succ]
          exact ih (p :: seen) k _ _ (List.mem_cons_of_mem p hseen) hex

lemma dedupRows_get_de_of_mem_existing (existing : List String) (ps : List String) :
    ∀ (seen : List String) (k : Nat) (hk : k < ps.length)
      (ho : k < (dedupRows existing seen ps).length),
      ps.get ⟨k, hk⟩ ∈ existing →
      (dedupRows existing seen ps).get ⟨k, ho⟩ = RowOutcome.duplicate_existing := by
  induction ps with
  | nil => intro seen k hk; exact absurd hk (by simp)
  | cons p ps ih =>
    intro seen k hk ho hex
    cases k with
    | zero =>
      have hp : (p :: ps).get ⟨0, hk⟩ = p := rfl
      rw [hp] at hex
      rw [List.get_of_eq (dedupRows_cons_mem_existing existing seen p ps hex)]
      rfl
    | succ k =>
      have hp : (p :: ps).get ⟨k + 1, hk⟩ = ps.get ⟨k, Nat.lt_of_succ_lt_succ hk⟩ := rfl
      rw [hp] at hex
      by_cases h1 : p ∈ existing
      · rw [List.get_of_eq (dedupRows_cons_mem_existing existing seen p ps h1)]
        rw [List.get_cons_succ]
        exact ih seen k _ _ hex
      · by_cases h2 : p ∈ seen
        · rw [List.get_of_eq (dedupRows_cons_mem_seen existing seen p ps h1 h2)]
          rw [List.get_cons_succ]
          exact ih seen k _ _ hex
        · rw [List.get_of_eq (dedupRows_cons_fresh existing seen p ps h1 h2)]
          rw [List.get_cons_succ]
          exact ih (p :: seen) k _ _ hex

lemma dedupRows_get_dib_of_earlier (existing : List String) (ps : List String) :
    ∀ (seen : List String) (i j : Nat) (hij : i < j)
      (hi : i < ps.length) (hj : j < ps.length)
      (ho : j < (dedupRows existing seen ps).length),
      ps.get ⟨i, hi⟩ = ps.get ⟨j, hj⟩ → ps.get ⟨i, hi⟩ ∉ existing →
      (dedupRows existing seen ps).get ⟨j, ho⟩ = RowOutcome.duplicate_in_batch := by
  induction ps with
  | nil => intro seen i j _ hi; exact absurd hi (by simp)
  | cons p ps ih =>
    intro seen i j hij hi hj ho heq hex
    cases j with
    | zero => exact absurd hij (Nat.not_lt_zero i)
    | succ j =>
      have hpj : (p :: ps).get ⟨j + 1, hj⟩ = ps.get ⟨j, Nat.lt_of_succ_lt_succ hj⟩ := rfl
      cases i with
      | zero =>
        have hpi : (p :: ps).get ⟨0, hi⟩ = p := rfl
        rw [hpi] at heq hex
        rw [hpj] at heq
        by_cases h1 : p ∈ existing
        · exact absurd h1 hex
        · by_cases h2 : p ∈ seen
          · rw [List.get_of_eq (dedupRows_cons_mem_seen existing seen p ps h1 h2)]
            rw [List.get_cons_succ]
            exact dedupRows_get_dib_of_mem_seen existing ps seen j _ _
              (heq ▸ h2) (heq ▸ hex)
          · rw [List.get_of_eq (dedupRows_cons_fresh existing seen p ps h1 h2)]
            rw [List.get_cons_succ]
            exact dedupRows_get_dib_of_mem_seen existing ps (p :: seen) j _ _
              (heq ▸ List.mem_cons_self p seen) (heq ▸ hex)
      | succ i =>
        have hpi : (p :: ps).get ⟨i + 1, hi⟩ = ps.get ⟨i, Nat.lt_of_succ_lt_succ hi⟩ := rfl
        rw [hpi] at heq hex
        rw [hpj] at heq
        have hij' : i < j := Nat.lt_of_succ_lt_succ hij
        by_cases h1 : p ∈ existing
        · rw [List.get_of_eq (dedupRows_cons_mem_existing existing seen p ps h1)]
          rw [List.get_cons_succ]
          exact ih seen i j hij' _ _ _ heq hex
        · by_cases h2 : p ∈ seen
          · rw [List.get_of_eq (dedupRows_cons_mem_seen existing seen p ps h1 h2)]
            rw [List.get_cons_succ]
            exact ih seen i j hij' _ _ _ heq hex
          · rw [List.get_of_eq (dedupRows_cons_fresh existing seen p ps h1 h2)]
            rw [List.get_cons_succ]
            exact ih (p :: seen) i j hij' _ _ _ heq hex

lemma dedupRows_get_ne_dib_of_first (existing : List String) (ps : List String) :
    ∀ (seen : List String) (i : Nat) (hi : i < ps.length)
      (ho : i < (dedupRows existing seen ps).length),
      ps.get ⟨i, hi⟩ ∉ seen →
      (∀ (k : Nat) (hk : k < ps.length), k < i → ps.get ⟨k, hk⟩ ≠ ps.get ⟨i, hi⟩) →
      (dedupRows existing seen ps).get ⟨i, ho⟩ ≠ RowOutcome.duplicate_in_batch := by
  induction ps with
  | nil => intro seen i hi; exact absurd hi (by simp)
  | cons p ps ih =>
    intro seen i hi ho hns hfirst
    cases i with
    | zero =>
      have hpi : (p :: ps).get ⟨0, hi⟩ = p := rfl
      rw [hpi] at hns
      by_cases h1 : p ∈ existing
      · rw [List.get_of_eq (dedupRows_cons_mem_existing existing seen p ps h1)]
        intro hcontra
        exact RowOutcome.noConfusion hcontra
      · by_cases h2 : p ∈ seen
        · exact absurd h2 hns
        · rw [List.get_of_eq (dedupRows_cons_fresh existing seen p ps h1 h2)]
          intro hcontra
          exact RowOutcome.noConfusion hcontra
    | succ i =>
      have hpi : (p :: ps).get ⟨i + 1, hi⟩ = ps.get ⟨i, Nat.lt_of_succ_lt_succ hi⟩ := rfl
      rw [hpi] at hns
      have hhead : p ≠ ps.get ⟨i, Nat.lt_of_succ_lt_succ hi⟩ := by
        have := hfirst 0 (Nat.succ_pos _) (Nat.succ_pos i)
        rw [hpi] at this
        exact this
      have hfirst' : ∀ (k : Nat) (hk : k < ps.length), k < i →
          ps.get ⟨k, hk⟩ ≠ ps.get ⟨i, Nat.lt_of_succ_lt_succ hi⟩ := by
        intro k hk hki
        have := hfirst (k + 1) (Nat.succ_lt_succ hk) (Nat.succ_lt_succ hki)
        rw [hpi] at this
        exact this
      by_cases h1 : p ∈ existing
      · rw [List.get_of_eq (dedupRows_cons_mem_existing existing seen p ps h1)]
        rw [List.get_cons_succ]
        exact ih seen i _ _ hns hfirst'
      · by_cases h2 : p ∈ seen
        · rw [List.get_of_eq (dedupRows_cons_mem_seen existing seen p ps h1 h2)]
          rw [List.get_cons_succ]
          exact ih seen i _ _ hns hfirst'
        · rw [List.get_of_eq (dedupRows_cons_fresh existing seen p ps h1 h2)]
          rw [List.get_cons_succ]
          have hns' : ps.get ⟨i, Nat.lt_of_succ_lt_succ hi⟩ ∉ p :: seen := by
            intro hmem
            rcases List.mem_cons.mp hmem with hcase | hcase
            · exact hhead hcase.symm
            · exact hns hcase
          exact ih (p :: seen) i _ _ hns' hfirst'

/-- Claim C1 counterexample: with an empty client store and the batch
`["+998901234567", "+998901234567", "+998901234567"]`, rows at positions
1 and 2 (0-based) carry the same phone and position 1 is the earlier of
that pair, yet the row at position 1 is classified `duplicate_in_batch`
while not being `duplicate_existing` — so "the earlier row is never
classified `duplicate_in_batch`" fails for non-first occurrences. -/
theorem dedup_earlier_dib_counterexample :
    (["+998901234567", "+998901234567", "+998901234567"] : List String).get ⟨1, by decide⟩
        = (["+998901234567", "+998901234567", "+998901234567"] : List String).get ⟨2, by decide⟩
      ∧ (classifyBatch [] ["+998901234567", "+998901234567", "+998901234567"]).get
          ⟨1, by decide⟩ = RowOutcome.duplicate_in_batch
      ∧ (classifyBatch [] ["+998901234567", "+998901234567", "+998901234567"]).get
          ⟨1, by decide⟩ ≠ RowOutcome.duplicate_existing := by
  refine ⟨rfl, by decide, by decide⟩

/-- Claim C1 (amended): for two rows of one batch carrying the same
canonicalized phone, the later row is classified `duplicate_in_batch`
unless the earlier row is classified `duplicate_existing`; and the first
row carrying a given phone — one with no earlier equal-phone row — is
never classified `duplicate_in_batch`. -/
theorem dedup_ordering_invariant (existing batch : List String) (i j : Nat)
    (hij : i < j) (hi : i < batch.length) (hj : j < batch.length)
    (oi : i < (classifyBatch existing batch).length)
    (oj : j < (classifyBatch existing batch).length)
    (hphone : batch.get ⟨i, hi⟩ = batch.get ⟨j, hj⟩) :
    ((classifyBatch existing batch).get ⟨j, oj⟩ = RowOutcome.duplicate_in_batch
      ∨ (classifyBatch existing batch).get ⟨i, oi⟩ = RowOutcome.duplicate_existing)
    ∧ ((∀ (k : Nat) (hk : k < batch.length), k < i →
          batch.get ⟨k, hk⟩ ≠ batch.get ⟨i, hi⟩) →
        (classifyBatch existing batch).get ⟨i, oi⟩ ≠ RowOutcome.duplicate_in_batch) := by
  constructor
  · by_cases hex : batch.get ⟨i, hi⟩ ∈ existing
    · exact Or.inr (dedupRows_get_de_of_mem_existing existing batch [] i hi oi hex)
    · exact Or.inl
        (dedupRows_get_dib_of_earlier existing batch [] i j hij hi hj oj hphone hex)
  · intro hfirst
    exact dedupRows_get_ne_dib_of_first existing batch [] i hi oi
      (List.not_mem_nil _) hfirst

/-- Witness for the amended C1: store `["+998700000000"]`, batch
`["+998901234567", "+998911111111", "+998901234567"]`, pair of rows 0 and
2. -/
theorem dedup_ordering_invariant_witness :
    (classifyBatch ["+998700000000"]
        ["+998901234567", "+998911111111", "+998901234567"]).get ⟨2, by decide⟩
        = RowOutcome.duplicate_in_batch
      ∨ (classifyBatch ["+998700000000"]
        ["+998901234567", "+998911111111", "+998901234567"]).get ⟨0, by decide⟩
        = RowOutcome.duplicate_existing :=
  (dedup_ordering_invariant ["+998700000000"]
    ["+998901234567", "+998911111111", "+998901234567"] 0 2
    (by decide) (by decide) (by decide) (by decide) (by decide) rfl).1

lemma previewRows_ops_nil (existing : List String) (ps : List String) :
    ∀ seen : List String, (previewRows existing seen ps).2 = [] := by
  induction ps with
  | nil => intro seen; rfl
  | cons p ps ih =>
    intro seen
    by_cases h1 : p ∈ existing
    · simp [previewRows, previewRowStep, h1, ih]
    · by_cases h2 : p ∈ seen
      · simp [previewRows, previewRowStep, h1, h2, ih]
      · simp [previewRows, previewRowStep, h1, h2, ih]

lemma previewRows_fst_eq_dedupRows (existing : List String) (ps : List String) :
    ∀ seen : List String, (previewRows existing seen ps).1 = dedupRows existing seen ps := by
  induction ps with
  | nil => intro seen; rfl
  | cons p ps ih =>
    intro seen
    by_cases h1 : p ∈ existing
    · simp [previewRows, previewRowStep, dedupRows, h1, ih]
    · by_cases h2 : p ∈ seen
      · simp [previewRows, previewRowStep, dedupRows, h1, h2, ih]
      · simp [previewRows, previewRowStep, dedupRows, h1, h2, ih]

/-- Claim C5: the preview pass performs no store operation — it creates,
edits, and deletes nothing, so the client store after a preview is the
input store, and the whole classification is returned as data (the
outcome sequence of the deduplicator). -/
theorem preview_no_store_mutation (store : List Client) (batch : List String) :
    (previewRun store batch).2 = []
    ∧ applyOps store (previewRun store batch).2 = store
    ∧ (previewRun store batch).1.outcomes
        = classifyBatch (listExistingPhones store) batch := by
  have hops := previewRows_ops_nil (listExistingPhones store) batch []
  have hfst := previewRows_fst_eq_dedupRows (listExistingPhones store) batch []
  refine ⟨hops, ?_, hfst⟩
  show applyOps store (previewRows (listExistingPhones store) [] batch).2 = store
  rw [hops]
  rfl

/-- Claim C6: the report returned by the commit pass — failure count equal
to the number of failure entries, success and failure counts summing to
the number of submitted rows, and each failure entry exposing the row
number and phone of a submitted row. -/
theorem commit_report_shape (storePhones : List String) (rows : List CommitInputRow) :
    (commitRows storePhones rows).1.failed
        = (commitRows storePhones rows).1.failed_rows.length
    ∧ (commitRows storePhones rows).1.success + (commitRows storePhones rows).1.failed
        = rows.length
    ∧ (∀ f ∈ (commitRows storePhones rows).1.failed_rows,
        ∃ r ∈ rows, f.row = r.rowNum ∧ f.phone = r.phone) := by
  induction rows with
  | nil =>
    exact ⟨rfl, rfl, fun f hf => absurd hf (List.not_mem_nil f)⟩
  | cons r rs ih =>
    obtain ⟨ih1, ih2, ih3⟩ := ih
    cases hv : validateCommitRow r with
    | some err =>
      refine ⟨?_, ?_, ?_⟩
      · simp only [commitRows, hv]
        simp [ih1]
      · simp only [commitRows, hv]
        simp only [List.length_cons]
        omega
      · intro f hf
        simp only [commitRows, hv, List.mem_cons] at hf
        rcases hf with hf | hf
        · exact ⟨r, List.mem_cons_self r rs, by rw [hf], by rw [hf]⟩
        · obtain ⟨r', hr', h1, h2⟩ := ih3 f hf
          exact ⟨r', List.mem_cons_of_mem r hr', h1, h2⟩
    | none =>
      by_cases hm : r.phone ∈ storePhones
      · refine ⟨?_, ?_, ?_⟩
        · simp only [commitRows, hv]
          simp [hm, ih1]
        · simp only [commitRows, hv]
          simp only [hm, if_true, List.length_cons]
          omega
        · intro f hf
          simp only [commitRows, hv, hm, if_true, List.mem_cons] at hf
          rcases hf with hf | hf
          · exact ⟨r, List.mem_cons_self r rs, by rw [hf], by rw [hf]⟩
          · obtain ⟨r', hr', h1, h2⟩ := ih3 f hf
            exact ⟨r', List.mem_cons_of_mem r hr', h1, h2⟩
      · refine ⟨?_, ?_, ?_⟩
        · simp only [commitRows, hv]
          simp [hm, ih1]
        · simp only [commitRows, hv]
          simp only [hm, if_false, List.length_cons]
          omega
        · intro f hf
          simp only [commitRows, hv, hm, if_false] at hf
          obtain ⟨r', hr', h1, h2⟩ := ih3 f hf
          exact ⟨r', List.mem_cons_of_mem r hr', h1, h2⟩

/-- Witness for C6: a three-row commit against the store
`["+998700000000"]` — one success, one duplicate, one blank name. -/
theorem commit_report_shape_witness :
    (commitRows ["+998700000000"]
        [⟨2, "Anna", "+998901234567", "", "new"⟩,
         ⟨3, "Bob", "+998700000000", "", "new"⟩,
         ⟨4, " ", "+998911111111", "", "new"⟩]).1.failed
      = (commitRows ["+998700000000"]
        [⟨2, "Anna", "+998901234567", "", "new"⟩,
         ⟨3, "Bob", "+998700000000", "", "new"⟩,
         ⟨4, " ", "+998911111111", "", "new"⟩]).1.failed_rows.length
    ∧ (commitRows ["+998700000000"]
        [⟨2, "Anna", "+998901234567", "", "new"⟩,
         ⟨3, "Bob", "+998700000000", "", "new"⟩,
         ⟨4, " ", "+998911111111", "", "new"⟩]).1.success
      + (commitRows ["+998700000000"]
        [⟨2, "Anna", "+998901234567", "", "new"⟩,
         ⟨3, "Bob", "+998700000000", "", "new"⟩,
         ⟨4, " ", "+998911111111", "", "new"⟩]).1.failed = 3 :=
  ⟨(commit_report_shape ["+998700000000"]
      [⟨2, "Anna", "+998901234567", "", "new"⟩,
       ⟨3, "Bob", "+998700000000", "", "new"⟩,
       ⟨4, " ", "+998911111111", "", "new"⟩]).1,
   (commit_report_shape ["+998700000000"]
      [⟨2, "Anna", "+998901234567", "", "new"⟩,
       ⟨3, "Bob", "+998700000000", "", "new"⟩,
       ⟨4, " ", "+998911111111", "", "new"⟩]).2.1⟩

end CRMImport
